import Mathlib

/-!
Shallow embedding of the Intcode virtual machine from `src/intcode.rs`
(generic `Computer<T>`, instantiated here at `T = Int`), together with
theorems checking the natural-language specification against it.

Conventions of the embedding:
* Rust's `HashMap<T, T>` memory is a partial map `Int → Option Int`.
* Rust `Result<A, String>` is `Except Err A`; the `Err` inductive carries
  the same distinctions as the source's error strings, and `Err.render`
  reproduces the exact message text.
* A Rust `panic` (the `unwrap()` inside `Instruction::new`'s `address`
  closure) is modelled as `none` in an outer `Option`.
* Mutable-reference methods become explicit state passing: each helper
  returns the post-call values of every piece of state it borrows mutably,
  on the error path as well, mirroring that in Rust the mutations already
  performed remain visible after an `Err` return.
* `VecDeque` queues are `List Int` (front = head).  A channel receiver is
  modelled by the list of values it will yield (empty = disconnected
  sender); a channel sender by a connected flag plus the list of values
  handed over so far (disconnected sends divert to `alt_output`).
-/

namespace Intcode

/-- Error taxonomy of `intcode.rs`; each constructor corresponds to one of
the `String` error messages produced in the source. -/
inductive Err where
  | outOfRange (loc : Int)
  | opcodeNotPositive (code : Int)
  | unrecognisedFormat (code : Int)
  | unsupported (code : Int)
  | immediateWrite
  | inputExhausted
  | channelRecvFailed
  | emptyMemory
  deriving DecidableEq, Repr

/-- The exact message text each error is rendered to in the source. -/
def Err.render : Err → String
  | .outOfRange loc => "Current location " ++ toString loc ++ " is out of range."
  | .opcodeNotPositive code => "Opcode must be positive, but got " ++ toString code
  | .unrecognisedFormat code => "Unrecognised opcode format: " ++ toString code
  | .unsupported code => "Unsupported instruction: " ++ toString code
  | .immediateWrite => "Can't populate Immediate argument."
  | .inputExhausted => "Failed to find an input value."
  | .channelRecvFailed => "Failed to receive an input value."
  | .emptyMemory => "Empty memory!"

/-- Sparse memory: `HashMap<T, T>` as a partial map. -/
def Mem : Type := Int → Option Int

/-- `HashMap::insert`. -/
def store (m : Mem) (k v : Int) : Mem := fun a => if a = k then some v else m a

/-- The empty map. -/
def emptyMem : Mem := fun _ => none

/-- `Computer::new`'s `(0..).zip(memory).collect()`: load a program listing
at ascending addresses from 0. -/
def initMem (prog : List Int) : Mem :=
  prog.enum.foldl (fun m p => store m (Int.ofNat p.1) p.2) emptyMem

/-- Addressing modes (`ArgumentKind` in the source). -/
inductive ArgumentKind where
  | Position
  | Immediate
  | Relative
  deriving DecidableEq, Repr

/-- Decoded operand (`Argument<T>`): raw value, mode, and the relative base
captured at decode time. -/
structure Argument where
  value : Int
  kind : ArgumentKind
  relative_base : Int
  deriving DecidableEq, Repr

/-- `Argument::new`: a missing mode defaults to `Position`. -/
def Argument.new (value : Int) (kind : Option ArgumentKind) (relative_base : Int) : Argument :=
  { value := value, kind := kind.getD .Position, relative_base := relative_base }

/-- `Argument::get`. -/
def Argument.get (a : Argument) (memory : Mem) : Option Int :=
  match a.kind with
  | .Immediate => some a.value
  | .Position => memory a.value
  | .Relative => memory (a.value + a.relative_base)

/-- `Argument::set`. -/
def Argument.set (a : Argument) (memory : Mem) (new_value : Int) : Except Err Mem :=
  match a.kind with
  | .Immediate => .error .immediateWrite
  | .Position => .ok (store memory a.value new_value)
  | .Relative => .ok (store memory (a.value + a.relative_base) new_value)

/-- The `get(..).unwrap_or_else(|| convert(0))` pattern used at every
execution site: read an operand, defaulting a missing cell to 0. -/
def readValue (a : Argument) (memory : Mem) : Int := (a.get memory).getD 0

/-- Decimal digits, least significant first (fuel-indexed helper).
`fuel = n` always suffices. -/
def digitsLEAux : Nat → Nat → List Nat
  | 0, _ => []
  | fuel + 1, n => if n < 10 then [n] else n % 10 :: digitsLEAux fuel (n / 10)

/-- Decimal digits of `n`, least significant first; this is exactly the
`to_string().chars().rfold` traversal in `read_instruction_code`. -/
def digitsLE (n : Nat) : List Nat := digitsLEAux n n

/-- The `rfold` arm mapping a mode digit to its `ArgumentKind`
(`'0' => Position, '1' => Immediate, _ => Relative`). -/
def kindOfDigit (d : Nat) : ArgumentKind :=
  if d = 0 then .Position else if d = 1 then .Immediate else .Relative

/-- `Computer::read_instruction_code`: split a raw cell value into opcode
and per-operand addressing modes. -/
def read_instruction_code (code : Int) : Except Err (Int × List ArgumentKind) :=
  if code < 1 then .error (.opcodeNotPositive code)
  else
    if code.natAbs ≤ 99 then .ok (code, [])
    else
      let ds := digitsLE (code.natAbs / 100)
      if ds.all (fun d => d ≤ 2) then
        .ok (code % 100, ds.map kindOfDigit)
      else .error (.unrecognisedFormat code)

/-- `ComputerInput<T>`: either a caller-populated FIFO queue, or a channel
receiver, modelled by the list of values it will yield (empty list =
the sender has disconnected, so `recv` fails). -/
inductive ComputerInput where
  | Queue (q : List Int)
  | Channel (rx : List Int)
  deriving DecidableEq, Repr

/-- `ComputerOutput<T>`: either a FIFO queue, or a channel sender modelled
by a connected flag (false = receiver dropped) plus the list of values
successfully handed over so far. -/
inductive ComputerOutput where
  | Queue (q : List Int)
  | Channel (connected : Bool) (sent : List Int)
  deriving DecidableEq, Repr

/-- `VecDeque::pop_front` on an input endpoint (queue or channel alike). -/
def popOne : ComputerInput → Option (Int × ComputerInput)
  | .Queue [] => none
  | .Queue (v :: rest) => some (v, .Queue rest)
  | .Channel [] => none
  | .Channel (v :: rest) => some (v, .Channel rest)

/-- `CallResult<T>`: how an executed instruction moves the pointer. -/
inductive CallResult where
  | Step (distance : Int)
  | Jump (target : Int)
  | Stop
  deriving DecidableEq, Repr

/-- `Instruction<T>`: the closed instruction variant. -/
inductive Instruction where
  | Add (input1 input2 out : Argument)
  | Multiply (input1 input2 out : Argument)
  | Input (destination : Argument)
  | Output (source : Argument)
  | JumpIfTrue (input target : Argument)
  | JumpIfFalse (input target : Argument)
  | LessThan (input1 input2 out : Argument)
  | Equals (input1 input2 out : Argument)
  | AdjustRelativeBase (input : Argument)
  | Stop
  deriving DecidableEq, Repr

/-- `Instruction::length`. -/
def Instruction.length : Instruction → Int
  | .Add _ _ _ => 4
  | .Multiply _ _ _ => 4
  | .Input _ => 2
  | .Output _ => 2
  | .JumpIfTrue _ _ => 3
  | .JumpIfFalse _ _ => 3
  | .LessThan _ _ _ => 4
  | .Equals _ _ _ => 4
  | .AdjustRelativeBase _ => 2
  | .Stop => 0

/-- `Instruction::new`.  The source's `address` closure is
`|x| *(memory.get(&x).unwrap())`: a missing operand-slot cell makes the
`unwrap` panic, which we model as the outer `none`.  Otherwise the result
is `some (.ok instruction)` for the ten supported opcodes and
`some (.error (.unsupported code))` for any other code. -/
def Instruction.new (code base_location : Int) (argument_types : List ArgumentKind)
    (memory : Mem) (relative_base : Int) : Option (Except Err Instruction) :=
  if code = 1 then
    match memory (base_location + 1), memory (base_location + 2), memory (base_location + 3) with
    | some a, some b, some c =>
        some (.ok (.Add (Argument.new a (argument_types.get? 0) relative_base)
                        (Argument.new b (argument_types.get? 1) relative_base)
                        (Argument.new c (argument_types.get? 2) relative_base)))
    | _, _, _ => none
  else if code = 2 then
    match memory (base_location + 1), memory (base_location + 2), memory (base_location + 3) with
    | some a, some b, some c =>
        some (.ok (.Multiply (Argument.new a (argument_types.get? 0) relative_base)
                             (Argument.new b (argument_types.get? 1) relative_base)
                             (Argument.new c (argument_types.get? 2) relative_base)))
    | _, _, _ => none
  else if code = 3 then
    match memory (base_location + 1) with
    | some a => some (.ok (.Input (Argument.new a (argument_types.get? 0) relative_base)))
    | none => none
  else if code = 4 then
    match memory (base_location + 1) with
    | some a => some (.ok (.Output (Argument.new a (argument_types.get? 0) relative_base)))
    | none => none
  else if code = 5 then
    match memory (base_location + 1), memory (base_location + 2) with
    | some a, some b =>
        some (.ok (.JumpIfTrue (Argument.new a (argument_types.get? 0) relative_base)
                               (Argument.new b (argument_types.get? 1) relative_base)))
    | _, _ => none
  else if code = 6 then
    match memory (base_location + 1), memory (base_location + 2) with
    | some a, some b =>
        some (.ok (.JumpIfFalse (Argument.new a (argument_types.get? 0) relative_base)
                                (Argument.new b (argument_types.get? 1) relative_base)))
    | _, _ => none
  else if code = 7 then
    match memory (base_location + 1), memory (base_location + 2), memory (base_location + 3) with
    | some a, some b, some c =>
        some (.ok (.LessThan (Argument.new a (argument_types.get? 0) relative_base)
                             (Argument.new b (argument_types.get? 1) relative_base)
                             (Argument.new c (argument_types.get? 2) relative_base)))
    | _, _, _ => none
  else if code = 8 then
    match memory (base_location + 1), memory (base_location + 2), memory (base_location + 3) with
    | some a, some b, some c =>
        some (.ok (.Equals (Argument.new a (argument_types.get? 0) relative_base)
                           (Argument.new b (argument_types.get? 1) relative_base)
                           (Argument.new c (argument_types.get? 2) relative_base)))
    | _, _, _ => none
  else if code = 9 then
    match memory (base_location + 1) with
    | some a => some (.ok (.AdjustRelativeBase (Argument.new a (argument_types.get? 0) relative_base)))
    | none => none
  else if code = 99 then some (.ok .Stop)
  else some (.error (.unsupported code))

/-- Post-state of `Instruction::call`: every piece of state the call
borrows mutably, as it stands when the call returns (on the error path
too), plus the `Result<CallResult, _>`. -/
structure CallEffect where
  mem : Mem
  inp : ComputerInput
  out : ComputerOutput
  alt : List Int
  rb : Int
  res : Except Err CallResult

/-- `Instruction::add`. -/
def Instruction.add (self : Instruction) (input1 input2 out : Argument) (memory : Mem) :
    Mem × Except Err CallResult :=
  let result := readValue input1 memory + readValue input2 memory
  match out.set memory result with
  | .error e => (memory, .error e)
  | .ok m => (m, .ok (.Step self.length))

/-- `Instruction::multiply`. -/
def Instruction.multiply (self : Instruction) (input1 input2 out : Argument) (memory : Mem) :
    Mem × Except Err CallResult :=
  let result := readValue input1 memory * readValue input2 memory
  match out.set memory result with
  | .error e => (memory, .error e)
  | .ok m => (m, .ok (.Step self.length))

/-- `Instruction::input`: the value is popped from the endpoint before the
destination write is attempted, so on a failed write the pop remains. -/
def Instruction.input (self : Instruction) (destination : Argument) (memory : Mem)
    (reader : ComputerInput) : Mem × ComputerInput × Except Err CallResult :=
  match reader with
  | .Queue [] => (memory, .Queue [], .error .inputExhausted)
  | .Queue (value :: rest) =>
      match destination.set memory value with
      | .error e => (memory, .Queue rest, .error e)
      | .ok m => (m, .Queue rest, .ok (.Step self.length))
  | .Channel [] => (memory, .Channel [], .error .channelRecvFailed)
  | .Channel (value :: rest) =>
      match destination.set memory value with
      | .error e => (memory, .Channel rest, .error e)
      | .ok m => (m, .Channel rest, .ok (.Step self.length))

/-- `Instruction::output`: push to the queue, or send on the channel; a
send to a dropped receiver diverts the value into `alt_output`. -/
def Instruction.output (self : Instruction) (source : Argument) (memory : Mem)
    (writer : ComputerOutput) (alt_output : List Int) :
    ComputerOutput × List Int × Except Err CallResult :=
  let value := readValue source memory
  match writer with
  | .Queue q => (.Queue (q ++ [value]), alt_output, .ok (.Step self.length))
  | .Channel connected sent =>
      if connected then (.Channel connected (sent ++ [value]), alt_output, .ok (.Step self.length))
      else (.Channel connected sent, alt_output ++ [value], .ok (.Step self.length))

/-- `Instruction::jump_if_true`. -/
def Instruction.jump_if_true (self : Instruction) (input target : Argument) (memory : Mem) :
    Except Err CallResult :=
  if readValue input memory = 0 then .ok (.Step self.length)
  else .ok (.Jump (readValue target memory))

/-- `Instruction::jump_if_false`. -/
def Instruction.jump_if_false (self : Instruction) (input target : Argument) (memory : Mem) :
    Except Err CallResult :=
  if readValue input memory = 0 then .ok (.Jump (readValue target memory))
  else .ok (.Step self.length)

/-- `Instruction::less_than`. -/
def Instruction.less_than (self : Instruction) (input1 input2 out : Argument) (memory : Mem) :
    Mem × Except Err CallResult :=
  let value1 := readValue input1 memory
  let value2 := readValue input2 memory
  match out.set memory (if value1 < value2 then 1 else 0) with
  | .error e => (memory, .error e)
  | .ok m => (m, .ok (.Step self.length))

/-- `Instruction::equals`. -/
def Instruction.equals (self : Instruction) (input1 input2 out : Argument) (memory : Mem) :
    Mem × Except Err CallResult :=
  let value1 := readValue input1 memory
  let value2 := readValue input2 memory
  match out.set memory (if value1 = value2 then 1 else 0) with
  | .error e => (memory, .error e)
  | .ok m => (m, .ok (.Step self.length))

/-- `Instruction::adjust_relative_base`. -/
def Instruction.adjust_relative_base (self : Instruction) (input : Argument) (memory : Mem)
    (relative_base : Int) : Int × Except Err CallResult :=
  (relative_base + readValue input memory, .ok (.Step self.length))

/-- `Instruction::call`: dispatch to the per-instruction helper and
assemble the full post-call state. -/
def Instruction.call (self : Instruction) (memory : Mem) (reader : ComputerInput)
    (writer : ComputerOutput) (alt_output : List Int) (relative_base : Int) : CallEffect :=
  match self with
  | .Add input1 input2 out =>
      let r := self.add input1 input2 out memory
      ⟨r.1, reader, writer, alt_output, relative_base, r.2⟩
  | .Multiply input1 input2 out =>
      let r := self.multiply input1 input2 out memory
      ⟨r.1, reader, writer, alt_output, relative_base, r.2⟩
  | .Input destination =>
      let r := self.input destination memory reader
      ⟨r.1, r.2.1, writer, alt_output, relative_base, r.2.2⟩
  | .Output source =>
      let r := self.output source memory writer alt_output
      ⟨memory, reader, r.1, r.2.1, relative_base, r.2.2⟩
  | .JumpIfTrue input target =>
      ⟨memory, reader, writer, alt_output, relative_base, self.jump_if_true input target memory⟩
  | .JumpIfFalse input target =>
      ⟨memory, reader, writer, alt_output, relative_base, self.jump_if_false input target memory⟩
  | .LessThan input1 input2 out =>
      let r := self.less_than input1 input2 out memory
      ⟨r.1, reader, writer, alt_output, relative_base, r.2⟩
  | .Equals input1 input2 out =>
      let r := self.equals input1 input2 out memory
      ⟨r.1, reader, writer, alt_output, relative_base, r.2⟩
  | .AdjustRelativeBase input =>
      let r := self.adjust_relative_base input memory relative_base
      ⟨memory, reader, writer, alt_output, r.1, r.2⟩
  | .Stop => ⟨memory, reader, writer, alt_output, relative_base, .ok .Stop⟩

/-- `Computer<T>` at `T = Int`. -/
structure Computer where
  memory : Mem
  loc : Int
  running : Bool
  input : ComputerInput
  output : ComputerOutput
  alt_output : List Int
  relative_base : Int

/-- `Computer::new`: load the listing at ascending addresses from 0;
missing input/output endpoints default to empty queues. -/
def Computer.new (memory : List Int) (input : Option ComputerInput)
    (output : Option ComputerOutput) : Computer :=
  { memory := initMem memory
    loc := 0
    running := true
    input := input.getD (.Queue [])
    output := output.getD (.Queue [])
    alt_output := []
    relative_base := 0 }

/-- `Computer::result`: the value at address 0, or the empty-memory error. -/
def Computer.result (c : Computer) : Except Err Int :=
  match c.memory 0 with
  | some a => .ok a
  | none => .error .emptyMemory

/-- `Computer::output(&self)`: snapshot of produced values — a clone of
the queue, or of the overflow buffer for a channel-backed sink. -/
def Computer.readOutput (c : Computer) : List Int :=
  match c.output with
  | .Queue q => q
  | .Channel _ _ => c.alt_output

/-- The act of calling `Computer::output(&self)`: it borrows the engine
immutably, so it yields the snapshot and leaves the state as it was. -/
def Computer.outputCall (c : Computer) : List Int × Computer := (c.readOutput, c)

/-- `Computer::step`.  Result: `none` models a panic inside
`Instruction::new`; `some (c, some e)` is an error return with the state
as mutated so far; `some (c, none)` is a successful step. -/
def Computer.step (c : Computer) : Option (Computer × Option Err) :=
  match c.memory c.loc with
  | none => some (c, some (.outOfRange c.loc))
  | some x =>
    match read_instruction_code x with
    | .error e => some (c, some e)
    | .ok (instruction_code, argument_types) =>
      match Instruction.new instruction_code c.loc argument_types c.memory c.relative_base with
      | none => none
      | some (.error e) => some (c, some e)
      | some (.ok i) =>
        let eff := i.call c.memory c.input c.output c.alt_output c.relative_base
        let c' : Computer :=
          { c with memory := eff.mem, input := eff.inp, output := eff.out,
                   alt_output := eff.alt, relative_base := eff.rb }
        match eff.res with
        | .error e => some (c', some e)
        | .ok (.Step distance) => some ({ c' with loc := c'.loc + distance }, none)
        | .ok (.Jump target) => some ({ c' with loc := target }, none)
        | .ok .Stop => some ({ c' with running := false }, none)

/-- `Computer::run`, fuel-indexed: step while `running`, then return
`result()`.  `none` conflates fuel exhaustion with a panic; otherwise the
final state is returned alongside the `Result`. -/
def Computer.run : Nat → Computer → Option (Computer × Except Err Int)
  | fuel, c =>
    if c.running then
      match fuel with
      | 0 => none
      | fuel + 1 =>
        match c.step with
        | none => none
        | some (c', some e) => some (c', .error e)
        | some (c', none) => Computer.run fuel c'
    else some (c, c.result)

/-- Ghost trace: the values an instruction emits when executed (`[v]` for
an Output instruction reading `v`, `[]` for every other instruction). -/
def instrEmit (i : Instruction) (memory : Mem) : List Int :=
  match i with
  | .Output source => [readValue source memory]
  | _ => []

/-- Ghost trace: the values emitted during one `step` from `c` (empty when
decode or build does not reach a built instruction). -/
def stepEmits (c : Computer) : List Int :=
  match c.memory c.loc with
  | none => []
  | some x =>
    match read_instruction_code x with
    | .error _ => []
    | .ok (instruction_code, argument_types) =>
      match Instruction.new instruction_code c.loc argument_types c.memory c.relative_base with
      | some (.ok i) => instrEmit i c.memory
      | _ => []

/-- Ghost trace: the values emitted across a fuelled `run` from `c`.
A step that returns an error emits nothing (Output never fails). -/
def runEmits : Nat → Computer → List Int
  | fuel, c =>
    if c.running then
      match fuel with
      | 0 => []
      | fuel + 1 =>
        match c.step with
        | some (c', none) => stepEmits c ++ runEmits fuel c'
        | _ => []
    else []

/-- Opcodes with a defined instruction. -/
def supportedCodes : List Int := [1, 2, 3, 4, 5, 6, 7, 8, 9, 99]

/-- Number of operand-slot cells `Instruction::new` reads for a supported
opcode (= encoded length minus one, and 0 for Stop). -/
def numSlots : Int → Nat
  | 1 => 3
  | 2 => 3
  | 3 => 1
  | 4 => 1
  | 5 => 2
  | 6 => 2
  | 7 => 3
  | 8 => 3
  | 9 => 1
  | _ => 0

/-- Example engine for the C1 analysis: program `[103, 0]` (Input with an
Immediate destination) and one queued input value. -/
def inputFailExample : Computer := Computer.new [103, 0] (some (.Queue [42])) none

/-- Post-step state of `inputFailExample`: the queued value is gone. -/
def inputFailExampleAfter : Computer := { inputFailExample with input := .Queue [] }

/-- The instructions whose execution may write to memory. -/
def writesMem : Instruction → Bool
  | .Add _ _ _ => true
  | .Multiply _ _ _ => true
  | .Input _ => true
  | .LessThan _ _ _ => true
  | .Equals _ _ _ => true
  | _ => false

/-- Example engine for the C7 witness: program `[104, 42, 99]` outputs 42
and stops. -/
def outputExample : Computer := Computer.new [104, 42, 99] none none

/-- Final state of `outputExample` after a full run. -/
def outputExampleFinal : Computer :=
  { outputExample with output := .Queue [42], loc := 2, running := false }

/-! ### Helper lemmas -/

theorem Argument.set_error {a : Argument} {m : Mem} {v : Int} {e : Err}
    (h : a.set m v = .error e) : e = .immediateWrite ∧ a.kind = .Immediate := by
  unfold Argument.set at h
  split at h <;> simp_all

theorem Argument.set_ok {a : Argument} (m : Mem) (v : Int) (h : a.kind ≠ .Immediate) :
    ∃ m', a.set m v = .ok m' := by
  unfold Argument.set
  split <;> simp_all

theorem Argument.get_set {a : Argument} {m m' : Mem} {v : Int}
    (h : a.set m v = .ok m') : a.get m' = some v := by
  unfold Argument.set at h
  unfold Argument.get
  split at h <;> simp_all <;> (subst h; simp [store])

theorem digitsLEAux_get? (fuel : Nat) :
    ∀ n i, n ≤ fuel → ((digitsLEAux fuel n).get? i).getD 0 = n / 10 ^ i % 10 := by
  induction fuel with
  | zero =>
    intro n i hn
    interval_cases n
    simp [digitsLEAux, Nat.zero_div]
  | succ fuel ih =>
    intro n i hn
    by_cases h10 : n < 10
    · simp only [digitsLEAux, if_pos h10]
      match i with
      | 0 => simp [Nat.mod_eq_of_lt h10]
      | i + 1 =>
        have : n / 10 ^ (i + 1) = 0 := by
          apply Nat.div_eq_of_lt
          calc n < 10 := h10
            _ = 10 ^ 1 := (pow_one 10).symm
            _ ≤ 10 ^ (i + 1) := Nat.pow_le_pow_right (by norm_num) (by omega)
        simp [this]
    · simp only [digitsLEAux, if_neg h10]
      match i with
      | 0 => simp [pow_zero, Nat.div_one]
      | i + 1 =>
        have hle : n / 10 ≤ fuel := by
          have := Nat.div_lt_self (by omega : 0 < n) (by norm_num : 1 < 10)
          omega
        have := ih (n / 10) i hle
        simpa [Nat.div_div_eq_div_mul, pow_succ, mul_comm] using this

theorem digitsLE_get? (n i : Nat) : ((digitsLE n).get? i).getD 0 = n / 10 ^ i % 10 :=
  digitsLEAux_get? n n i le_rfl

/-- When `Instruction::call` returns an error, memory, the output sink,
the overflow buffer and the relative base are exactly as they were, the
error is never the empty-memory one, and the input endpoint is unchanged
except that a failed destination write of an Input instruction has already
popped one value. -/
theorem call_error_state {i : Instruction} {m : Mem} {inp : ComputerInput}
    {out : ComputerOutput} {alt : List Int} {rb : Int} {e : Err}
    (h : (i.call m inp out alt rb).res = .error e) :
    (i.call m inp out alt rb).mem = m ∧
    (i.call m inp out alt rb).out = out ∧
    (i.call m inp out alt rb).alt = alt ∧
    (i.call m inp out alt rb).rb = rb ∧
    e ≠ .emptyMemory ∧
    ((i.call m inp out alt rb).inp = inp ∨
      (e = .immediateWrite ∧ ∃ v, popOne inp = some (v, (i.call m inp out alt rb).inp))) := by
  cases i with
  | Add i1 i2 o =>
    simp only [Instruction.call, Instruction.add] at h ⊢
    split at h <;> simp_all
    rename_i e' hs
    have := (Argument.set_error hs).1
    subst this
    rcases h with rfl
    simp
  | Multiply i1 i2 o =>
    simp only [Instruction.call, Instruction.multiply] at h ⊢
    split at h <;> simp_all
    rename_i e' hs
    have := (Argument.set_error hs).1
    subst this
    rcases h with rfl
    simp
  | Input d =>
    simp only [Instruction.call, Instruction.input] at h ⊢
    split at h <;> (try split at h) <;> simp_all [popOne] <;>
      first
      | (subst h; decide)
      | (rename_i hset
         refine ⟨by rw [(Argument.set_error hset).1]; decide, (Argument.set_error hset).1⟩)
  | Output s =>
    exfalso
    simp only [Instruction.call, Instruction.output] at h
    split at h <;> simp_all
    split at h <;> simp_all
  | JumpIfTrue a b =>
    simp only [Instruction.call, Instruction.jump_if_true] at h
    split at h <;> simp_all
  | JumpIfFalse a b =>
    simp only [Instruction.call, Instruction.jump_if_false] at h
    split at h <;> simp_all
  | LessThan i1 i2 o =>
    simp only [Instruction.call, Instruction.less_than] at h ⊢
    split at h <;> simp_all
    rename_i e' hs
    have := (Argument.set_error hs).1
    subst this
    rcases h with rfl
    simp
  | Equals i1 i2 o =>
    simp only [Instruction.call, Instruction.equals] at h ⊢
    split at h <;> simp_all
    rename_i e' hs
    have := (Argument.set_error hs).1
    subst this
    rcases h with rfl
    simp
  | AdjustRelativeBase a =>
    simp only [Instruction.call, Instruction.adjust_relative_base] at h
    simp_all
  | Stop => simp_all [Instruction.call]

/-- A queue-backed output sink comes out of any `Instruction::call` as the
same queue extended with exactly the call's emissions. -/
theorem call_queue_out (i : Instruction) (m : Mem) (inp : ComputerInput)
    (q0 : List Int) (alt : List Int) (rb : Int) :
    (i.call m inp (.Queue q0) alt rb).out = .Queue (q0 ++ instrEmit i m) := by
  cases i with
  | Add i1 i2 o =>
    simp [Instruction.call, Instruction.add, instrEmit]
  | Multiply i1 i2 o =>
    simp [Instruction.call, Instruction.multiply, instrEmit]
  | Input d =>
    simp [Instruction.call, Instruction.input, instrEmit]
  | Output s => simp [Instruction.call, Instruction.output, instrEmit]
  | JumpIfTrue a b => simp [Instruction.call, instrEmit]
  | JumpIfFalse a b => simp [Instruction.call, instrEmit]
  | LessThan i1 i2 o =>
    simp [Instruction.call, Instruction.less_than, instrEmit]
  | Equals i1 i2 o =>
    simp [Instruction.call, Instruction.equals, instrEmit]
  | AdjustRelativeBase a => simp [Instruction.call, instrEmit]
  | Stop => simp [Instruction.call, instrEmit]

theorem instrEmit_nil_of_call_error {i : Instruction} {m : Mem} {inp : ComputerInput}
    {out : ComputerOutput} {alt : List Int} {rb : Int} {e : Err}
    (h : (i.call m inp out alt rb).res = .error e) : instrEmit i m = [] := by
  cases i with
  | Output s =>
    exfalso
    simp only [Instruction.call, Instruction.output] at h
    split at h <;> (try split at h) <;> simp_all
  | _ => rfl

set_option maxHeartbeats 1000000 in
theorem Instruction.new_error {code base : Int} {ats : List ArgumentKind} {m : Mem}
    {rb : Int} {e : Err} (h : Instruction.new code base ats m rb = some (.error e)) :
    e = .unsupported code := by
  unfold Instruction.new at h
  repeat' split at h
  all_goals simp_all

theorem read_instruction_code_error {code : Int} {e : Err}
    (h : read_instruction_code code = .error e) :
    e = .opcodeNotPositive code ∨ e = .unrecognisedFormat code := by
  simp only [read_instruction_code] at h
  split_ifs at h <;> simp_all

theorem step_error_state {c c' : Computer} {e : Err} (h : c.step = some (c', some e)) :
    c'.memory = c.memory ∧ c'.loc = c.loc ∧ c'.running = c.running ∧
    c'.output = c.output ∧ c'.alt_output = c.alt_output ∧
    c'.relative_base = c.relative_base ∧ e ≠ .emptyMemory ∧
    (c'.input = c.input ∨ (e = .immediateWrite ∧ ∃ v, popOne c.input = some (v, c'.input))) := by
  simp only [Computer.step] at h
  split at h
  · simp only [Option.some.injEq, Prod.mk.injEq] at h
    obtain ⟨h1, h2⟩ := h
    subst h1
    subst h2
    simp
  · rename_i x hx
    split at h
    · -- decode error
      simp only [Option.some.injEq, Prod.mk.injEq] at h
      obtain ⟨h1, h2⟩ := h
      subst h1
      rename_i e0 hd
      subst h2
      refine ⟨rfl, rfl, rfl, rfl, rfl, rfl, ?_, .inl rfl⟩
      rcases read_instruction_code_error hd with rfl | rfl <;> (intro hc; exact Err.noConfusion hc)
    · rename_i p hdec
      split at h
      · exact absurd h (by simp)
      · -- build error
        simp only [Option.some.injEq, Prod.mk.injEq] at h
        obtain ⟨h1, h2⟩ := h
        subst h1
        rename_i e0 hb
        subst h2
        refine ⟨rfl, rfl, rfl, rfl, rfl, rfl, ?_, .inl rfl⟩
        rw [Instruction.new_error hb]
        intro hc
        exact Err.noConfusion hc
      · -- built ok, split on call result
        rename_i i hb
        split at h
        · -- call errored
          rename_i e0 hres
          simp only [Option.some.injEq, Prod.mk.injEq] at h
          obtain ⟨h1, h2⟩ := h
          subst h1
          subst h2
          obtain ⟨hm, ho, ha, hr, hne, hi⟩ := call_error_state hres
          exact ⟨hm, rfl, rfl, ho, ha, hr, hne, hi⟩
        · simp at h
        · simp at h
        · simp at h

/-- A step keeps a queue-backed output sink queue-backed and appends
exactly the step's emissions to it. -/
theorem step_queue_out {c c' : Computer} {s : Option Err} {q0 : List Int}
    (h : c.step = some (c', s)) (hq : c.output = .Queue q0) :
    c'.output = .Queue (q0 ++ stepEmits c) := by
  simp only [Computer.step] at h
  split at h
  · rename_i hx
    simp only [Option.some.injEq, Prod.mk.injEq] at h
    obtain ⟨h1, -⟩ := h
    subst h1
    simp [stepEmits, hx, hq]
  · rename_i x hx
    split at h
    · rename_i e0 hd
      simp only [Option.some.injEq, Prod.mk.injEq] at h
      obtain ⟨h1, -⟩ := h
      subst h1
      simp [stepEmits, hx, hd, hq]
    · rename_i p hdec
      split at h
      · exact absurd h (by simp)
      · rename_i e0 hb
        simp only [Option.some.injEq, Prod.mk.injEq] at h
        obtain ⟨h1, -⟩ := h
        subst h1
        simp [stepEmits, hx, hdec, hb, hq]
      · rename_i i hb
        have hout := call_queue_out i c.memory c.input q0 c.alt_output c.relative_base
        have hemit : stepEmits c = instrEmit i c.memory := by
          simp [stepEmits, hx, hdec, hb]
        split at h <;>
          (simp only [Option.some.injEq, Prod.mk.injEq] at h
           obtain ⟨h1, -⟩ := h
           subst h1
           simp only [hemit]
           rw [hq]
           exact hout)

/-- A step that returns an error emits nothing. -/
theorem stepEmits_nil_of_error {c c' : Computer} {e : Err}
    (h : c.step = some (c', some e)) : stepEmits c = [] := by
  simp only [Computer.step] at h
  split at h
  · rename_i hx
    simp [stepEmits, hx]
  · rename_i x hx
    split at h
    · rename_i e0 hd
      simp [stepEmits, hx, hd]
    · rename_i p hdec
      split at h
      · exact absurd h (by simp)
      · rename_i e0 hb
        simp [stepEmits, hx, hdec, hb]
      · rename_i i hb
        have hemit : stepEmits c = instrEmit i c.memory := by
          simp [stepEmits, hx, hdec, hb]
        split at h
        · rename_i e0 hres
          rw [hemit]
          exact instrEmit_nil_of_call_error hres
        · simp at h
        · simp at h
        · simp at h

/-! ### Claim theorems -/

/-- C3: for every raw cell value `code ≥ 1` whose decimal digits above the
hundreds place are all in {0,1,2}, decoding succeeds and yields opcode
`code mod 100`, with operand addressing modes derived digit-by-digit from
`code / 100`, least significant digit first (0 = Position, 1 = Immediate,
2 = Relative), mapping to operands in order; operands without an explicit
mode digit default to Position (via `Argument.new`). -/
theorem decode_opcode_and_modes (code : Int) (h1 : 1 ≤ code)
    (h2 : ∀ d ∈ digitsLE (code.natAbs / 100), d ≤ 2) :
    ∃ modes, read_instruction_code code = .ok (code % 100, modes) ∧
      ∀ (i : Nat) (v rb : Int),
        (Argument.new v (modes.get? i) rb).kind
          = kindOfDigit (code.natAbs / 100 / 10 ^ i % 10) := by
  simp only [read_instruction_code]
  rw [if_neg (by omega)]
  by_cases hle : code.natAbs ≤ 99
  · rw [if_pos hle]
    have hmod : code % 100 = code := Int.emod_eq_of_lt (by omega) (by omega)
    refine ⟨[], by rw [hmod], ?_⟩
    intro i v rb
    have hn : code.natAbs / 100 = 0 := by omega
    rw [hn]
    simp [Argument.new, kindOfDigit, Nat.zero_div]
  · rw [if_neg hle]
    have hall : (digitsLE (code.natAbs / 100)).all (fun d => decide (d ≤ 2)) = true := by
      rw [List.all_eq_true]
      intro d hd
      simpa using h2 d hd
    rw [if_pos hall]
    refine ⟨_, rfl, ?_⟩
    intro i v rb
    rcases hgi : (digitsLE (code.natAbs / 100)).get? i with - | d
    · have h0 : code.natAbs / 100 / 10 ^ i % 10 = 0 := by
        have hh := digitsLE_get? (code.natAbs / 100) i
        rw [hgi] at hh
        simpa using hh.symm
      rw [h0]
      rw [List.get?_eq_getElem?] at hgi
      simp [Argument.new, kindOfDigit, List.getElem?_map, hgi]
    · have hd : code.natAbs / 100 / 10 ^ i % 10 = d := by
        have hh := digitsLE_get? (code.natAbs / 100) i
        rw [hgi] at hh
        simpa using hh.symm
      rw [hd]
      rw [List.get?_eq_getElem?] at hgi
      simp [Argument.new, List.getElem?_map, hgi]

theorem decode_opcode_and_modes_witness :
    (1 : Int) ≤ 1002 ∧ (∀ d ∈ digitsLE ((1002 : Int).natAbs / 100), d ≤ 2) ∧
    ∃ modes, read_instruction_code 1002 = .ok (1002 % 100, modes) ∧
      ∀ (i : Nat) (v rb : Int),
        (Argument.new v (modes.get? i) rb).kind
          = kindOfDigit ((1002 : Int).natAbs / 100 / 10 ^ i % 10) :=
  ⟨by decide, by decide, decode_opcode_and_modes 1002 (by decide) (by decide)⟩

/-- C4: reading resolves Immediate to the literal, Position to
`memory[value]`, Relative to `memory[value + relative_base]`, with
never-written addresses reading as 0; writing through a Position or
Relative operand succeeds, stores at the resolved address, and reads back
as written. -/
theorem operand_resolution (a : Argument) (m : Mem) (v : Int) :
    (a.kind = .Immediate → readValue a m = a.value) ∧
    (a.kind = .Position →
      readValue a m = (m a.value).getD 0 ∧
      (m a.value = none → readValue a m = 0) ∧
      ∃ m', a.set m v = .ok m' ∧ m' a.value = some v ∧
        a.get m' = some v ∧ readValue a m' = v) ∧
    (a.kind = .Relative →
      readValue a m = (m (a.value + a.relative_base)).getD 0 ∧
      (m (a.value + a.relative_base) = none → readValue a m = 0) ∧
      ∃ m', a.set m v = .ok m' ∧ m' (a.value + a.relative_base) = some v ∧
        a.get m' = some v ∧ readValue a m' = v) := by
  rcases a with ⟨value, kind, rb⟩
  cases kind <;> simp [readValue, Argument.get, Argument.set, store] <;>
    (intro h; simp [h])

theorem operand_resolution_witness :
    readValue (Argument.new 3 (some .Position) 0) (initMem [11, 12, 13, 14]) = 14 ∧
    ∃ m', (Argument.new 3 (some .Position) 0).set (initMem [11, 12, 13, 14]) 42 = .ok m' ∧
      m' 3 = some 42 ∧ readValue (Argument.new 3 (some .Position) 0) m' = 42 := by
  have h := operand_resolution (Argument.new 3 (some .Position) 0) (initMem [11, 12, 13, 14]) 42
  obtain ⟨hr, hz, m', hset, hstore, hget, hread⟩ := h.2.1 rfl
  refine ⟨by rw [hr]; rfl, m', hset, hstore, hread⟩

/-- C5: writing through an Immediate operand always fails with the
immediate-write error and leaves memory unchanged (witnessed at the Input
call site, which threads the unchanged memory through); writes through
Position and Relative operands never fail. -/
theorem immediate_write_always_fails (a : Argument) (m : Mem) (v : Int) :
    (a.kind = .Immediate →
      a.set m v = .error .immediateWrite ∧
      ∀ (self : Instruction) (reader : ComputerInput),
        (Instruction.input self a m reader).1 = m) ∧
    (a.kind ≠ .Immediate → ∃ m', a.set m v = .ok m') := by
  constructor
  · intro hk
    constructor
    · rcases a with ⟨value, kind, rb⟩
      simp_all [Argument.set]
    · intro self reader
      rcases reader with (- | ⟨w, rest⟩) | (- | ⟨w, rest⟩) <;>
        simp [Instruction.input] <;>
        (rcases hs : a.set m w with e' | m'
         · simp [hs]
         · exact absurd hs (by rcases a with ⟨value, kind, rb⟩; simp_all [Argument.set]))
  · exact Argument.set_ok m v

theorem immediate_write_always_fails_witness :
    (Argument.new 5 (some .Immediate) 0).set emptyMem 7 = .error .immediateWrite ∧
    (Instruction.input .Stop (Argument.new 5 (some .Immediate) 0) emptyMem
      (.Queue [3])).1 = emptyMem :=
  ⟨((immediate_write_always_fails (Argument.new 5 (some .Immediate) 0) emptyMem 7).1 rfl).1,
   ((immediate_write_always_fails (Argument.new 5 (some .Immediate) 0) emptyMem 7).1 rfl).2
     .Stop (.Queue [3])⟩

/-- C2 counterexample: with sparse memory holding only address 0 (program
listing `[1]`), building the decoded Add instruction hits the `unwrap`
panic — construction aborts instead of returning a result or reading the
missing operand slots as 0, and so does the enclosing `step`. -/
theorem construction_panics_on_missing_slot :
    Instruction.new 1 0 [] (initMem [1]) 0 = none ∧
    (Computer.new [1] none none).step = none := ⟨rfl, rfl⟩

/-- C2 (amended): for every supported opcode decoded at pointer `p`,
construction reads the operand-slot cells at `p+1 .. p+arity-1` and
returns a built instruction when they are all present; but a slot address
never written makes the `unwrap` inside `Instruction::new` panic (modelled
as `none`) instead of reading 0 or returning an error. -/
theorem construction_reads_slots (code base : Int) (ats : List ArgumentKind)
    (m : Mem) (rb : Int) (hsup : code ∈ supportedCodes) :
    ((∀ k : Int, 1 ≤ k → k ≤ (numSlots code : Int) → (m (base + k)).isSome) →
      ∃ i, Instruction.new code base ats m rb = some (.ok i)) ∧
    ((∃ k : Int, 1 ≤ k ∧ k ≤ (numSlots code : Int) ∧ m (base + k) = none) →
      Instruction.new code base ats m rb = none) := by
  have slot3 : ∀ c : Int, numSlots c = 3 → c = code →
      ((∀ k : Int, 1 ≤ k → k ≤ (numSlots code : Int) → (m (base + k)).isSome) →
        (m (base + 1)).isSome ∧ (m (base + 2)).isSome ∧ (m (base + 3)).isSome) := by
    intro c hc hcc hall
    subst hcc
    rw [hc] at hall
    exact ⟨hall 1 (by norm_num) (by norm_num), hall 2 (by norm_num) (by norm_num),
      hall 3 (by norm_num) (by norm_num)⟩
  simp only [supportedCodes, List.mem_cons, List.not_mem_nil, or_false] at hsup
  rcases hsup with rfl | rfl | rfl | rfl | rfl | rfl | rfl | rfl | rfl | rfl
  case _ => -- 1
    refine ⟨fun hall => ?_, fun ⟨k, hk1, hk2, hnone⟩ => ?_⟩
    · obtain ⟨ha, hb, hc⟩ := slot3 1 rfl rfl hall
      obtain ⟨a, ha⟩ := Option.isSome_iff_exists.mp ha
      obtain ⟨b, hb⟩ := Option.isSome_iff_exists.mp hb
      obtain ⟨c, hc⟩ := Option.isSome_iff_exists.mp hc
      exact ⟨_, by simp [Instruction.new, ha, hb, hc]; try rfl⟩
    · simp only [numSlots] at hk2
      have : k = 1 ∨ k = 2 ∨ k = 3 := by omega
      rcases this with rfl | rfl | rfl
      · simp [Instruction.new, hnone]
      · cases hm1 : m (base + 1) <;> simp [Instruction.new, hm1, hnone]
      · cases hm1 : m (base + 1) <;> cases hm2 : m (base + 2) <;>
          simp [Instruction.new, hm1, hm2, hnone]
  case _ => -- 2
    refine ⟨fun hall => ?_, fun ⟨k, hk1, hk2, hnone⟩ => ?_⟩
    · obtain ⟨ha, hb, hc⟩ := slot3 2 rfl rfl hall
      obtain ⟨a, ha⟩ := Option.isSome_iff_exists.mp ha
      obtain ⟨b, hb⟩ := Option.isSome_iff_exists.mp hb
      obtain ⟨c, hc⟩ := Option.isSome_iff_exists.mp hc
      exact ⟨_, by simp [Instruction.new, ha, hb, hc]; try rfl⟩
    · simp only [numSlots] at hk2
      have : k = 1 ∨ k = 2 ∨ k = 3 := by omega
      rcases this with rfl | rfl | rfl
      · simp [Instruction.new, hnone]
      · cases hm1 : m (base + 1) <;> simp [Instruction.new, hm1, hnone]
      · cases hm1 : m (base + 1) <;> cases hm2 : m (base + 2) <;>
          simp [Instruction.new, hm1, hm2, hnone]
  case _ => -- 3
    refine ⟨fun hall => ?_, fun ⟨k, hk1, hk2, hnone⟩ => ?_⟩
    · obtain ⟨a, ha⟩ := Option.isSome_iff_exists.mp
        (hall 1 (by norm_num) (by norm_num [numSlots]))
      exact ⟨_, by simp [Instruction.new, ha]; try rfl⟩
    · simp only [numSlots] at hk2
      have : k = 1 := by omega
      subst this
      simp [Instruction.new, hnone]
  case _ => -- 4
    refine ⟨fun hall => ?_, fun ⟨k, hk1, hk2, hnone⟩ => ?_⟩
    · obtain ⟨a, ha⟩ := Option.isSome_iff_exists.mp
        (hall 1 (by norm_num) (by norm_num [numSlots]))
      exact ⟨_, by simp [Instruction.new, ha]; try rfl⟩
    · simp only [numSlots] at hk2
      have : k = 1 := by omega
      subst this
      simp [Instruction.new, hnone]
  case _ => -- 5
    refine ⟨fun hall => ?_, fun ⟨k, hk1, hk2, hnone⟩ => ?_⟩
    · obtain ⟨a, ha⟩ := Option.isSome_iff_exists.mp
        (hall 1 (by norm_num) (by norm_num [numSlots]))
      obtain ⟨b, hb⟩ := Option.isSome_iff_exists.mp
        (hall 2 (by norm_num) (by norm_num [numSlots]))
      exact ⟨_, by simp [Instruction.new, ha, hb]; try rfl⟩
    · simp only [numSlots] at hk2
      have : k = 1 ∨ k = 2 := by omega
      rcases this with rfl | rfl
      · simp [Instruction.new, hnone]
      · cases hm1 : m (base + 1) <;> simp [Instruction.new, hm1, hnone]
  case _ => -- 6
    refine ⟨fun hall => ?_, fun ⟨k, hk1, hk2, hnone⟩ => ?_⟩
    · obtain ⟨a, ha⟩ := Option.isSome_iff_exists.mp
        (hall 1 (by norm_num) (by norm_num [numSlots]))
      obtain ⟨b, hb⟩ := Option.isSome_iff_exists.mp
        (hall 2 (by norm_num) (by norm_num [numSlots]))
      exact ⟨_, by simp [Instruction.new, ha, hb]; try rfl⟩
    · simp only [numSlots] at hk2
      have : k = 1 ∨ k = 2 := by omega
      rcases this with rfl | rfl
      · simp [Instruction.new, hnone]
      · cases hm1 : m (base + 1) <;> simp [Instruction.new, hm1, hnone]
  case _ => -- 7
    refine ⟨fun hall => ?_, fun ⟨k, hk1, hk2, hnone⟩ => ?_⟩
    · obtain ⟨ha, hb, hc⟩ := slot3 7 rfl rfl hall
      obtain ⟨a, ha⟩ := Option.isSome_iff_exists.mp ha
      obtain ⟨b, hb⟩ := Option.isSome_iff_exists.mp hb
      obtain ⟨c, hc⟩ := Option.isSome_iff_exists.mp hc
      exact ⟨_, by simp [Instruction.new, ha, hb, hc]; try rfl⟩
    · simp only [numSlots] at hk2
      have : k = 1 ∨ k = 2 ∨ k = 3 := by omega
      rcases this with rfl | rfl | rfl
      · simp [Instruction.new, hnone]
      · cases hm1 : m (base + 1) <;> simp [Instruction.new, hm1, hnone]
      · cases hm1 : m (base + 1) <;> cases hm2 : m (base + 2) <;>
          simp [Instruction.new, hm1, hm2, hnone]
  case _ => -- 8
    refine ⟨fun hall => ?_, fun ⟨k, hk1, hk2, hnone⟩ => ?_⟩
    · obtain ⟨ha, hb, hc⟩ := slot3 8 rfl rfl hall
      obtain ⟨a, ha⟩ := Option.isSome_iff_exists.mp ha
      obtain ⟨b, hb⟩ := Option.isSome_iff_exists.mp hb
      obtain ⟨c, hc⟩ := Option.isSome_iff_exists.mp hc
      exact ⟨_, by simp [Instruction.new, ha, hb, hc]; try rfl⟩
    · simp only [numSlots] at hk2
      have : k = 1 ∨ k = 2 ∨ k = 3 := by omega
      rcases this with rfl | rfl | rfl
      · simp [Instruction.new, hnone]
      · cases hm1 : m (base + 1) <;> simp [Instruction.new, hm1, hnone]
      · cases hm1 : m (base + 1) <;> cases hm2 : m (base + 2) <;>
          simp [Instruction.new, hm1, hm2, hnone]
  case _ => -- 9
    refine ⟨fun hall => ?_, fun ⟨k, hk1, hk2, hnone⟩ => ?_⟩
    · obtain ⟨a, ha⟩ := Option.isSome_iff_exists.mp
        (hall 1 (by norm_num) (by norm_num [numSlots]))
      exact ⟨_, by simp [Instruction.new, ha]; try rfl⟩
    · simp only [numSlots] at hk2
      have : k = 1 := by omega
      subst this
      simp [Instruction.new, hnone]
  case _ => -- 99
    refine ⟨fun hall => ⟨.Stop, by simp [Instruction.new]⟩, fun ⟨k, hk1, hk2, hnone⟩ => ?_⟩
    simp only [numSlots] at hk2
    omega

theorem construction_reads_slots_witness :
    (1 : Int) ∈ supportedCodes ∧
    (∃ i, Instruction.new 1 0 [] (initMem [1, 0, 0, 0, 99]) 0 = some (.ok i)) ∧
    Instruction.new 1 0 [] (initMem [1]) 0 = none :=
  ⟨by decide,
   (construction_reads_slots 1 0 [] (initMem [1, 0, 0, 0, 99]) 0 (by decide)).1
     (by decide),
   (construction_reads_slots 1 0 [] (initMem [1]) 0 (by decide)).2
     ⟨1, by norm_num, by norm_num [numSlots], by decide⟩⟩

/-- C1 counterexample: stepping program `[103, 0]` with input queue `[42]`
fails with the immediate-write error, yet the value 42 has been consumed
from the input queue — the step is not atomic with respect to the input
source. -/
theorem step_consumes_input_on_failed_write :
    inputFailExample.input = .Queue [42] ∧
    (inputFailExample.step.map (fun p => (p.1.input, p.2)))
      = some (.Queue [], some .immediateWrite) ∧
    (ComputerInput.Queue [] : ComputerInput) ≠ .Queue [42] :=
  ⟨rfl, rfl, by decide⟩

/-- C1 (amended): if a step fails at decode, instruction build, or
execute, then memory, the instruction pointer, the relative base, the
running flag, the output sink and the overflow buffer are unchanged; the
input source is also unchanged, except that an Input instruction whose
destination write fails (the immediate-write error) has already consumed
exactly one value from it. -/
theorem step_failure_frame {c c' : Computer} {e : Err}
    (h : c.step = some (c', some e)) :
    c'.memory = c.memory ∧ c'.loc = c.loc ∧ c'.relative_base = c.relative_base ∧
    c'.running = c.running ∧ c'.output = c.output ∧ c'.alt_output = c.alt_output ∧
    (c'.input = c.input ∨
      (e = .immediateWrite ∧ ∃ v, popOne c.input = some (v, c'.input))) := by
  obtain ⟨h1, h2, h3, h4, h5, h6, -, h8⟩ := step_error_state h
  exact ⟨h1, h2, h6, h3, h4, h5, h8⟩

theorem step_failure_frame_witness :
    inputFailExampleAfter.memory = inputFailExample.memory ∧
    inputFailExampleAfter.loc = inputFailExample.loc ∧
    inputFailExampleAfter.relative_base = inputFailExample.relative_base ∧
    inputFailExampleAfter.running = inputFailExample.running ∧
    inputFailExampleAfter.output = inputFailExample.output ∧
    inputFailExampleAfter.alt_output = inputFailExample.alt_output ∧
    (inputFailExampleAfter.input = inputFailExample.input ∨
      (Err.immediateWrite = Err.immediateWrite ∧
        ∃ v, popOne inputFailExample.input = some (v, inputFailExampleAfter.input))) :=
  @step_failure_frame inputFailExample inputFailExampleAfter .immediateWrite (by rfl)

/-- C8: executing any instruction other than AdjustRelativeBase leaves the
relative base unchanged; AdjustRelativeBase adds its source operand's
resolved value to it and advances the pointer by 2; in particular one step
of program `[109, -7]` yields relative base -7 and pointer 2. -/
theorem relative_base_frame :
    (∀ (i : Instruction) (m : Mem) (reader : ComputerInput) (writer : ComputerOutput)
        (alt : List Int) (rb : Int),
        (∀ src, i ≠ .AdjustRelativeBase src) → (i.call m reader writer alt rb).rb = rb) ∧
    (∀ (src : Argument) (m : Mem) (reader : ComputerInput) (writer : ComputerOutput)
        (alt : List Int) (rb : Int),
        ((Instruction.AdjustRelativeBase src).call m reader writer alt rb).rb
            = rb + readValue src m ∧
        ((Instruction.AdjustRelativeBase src).call m reader writer alt rb).res
            = .ok (.Step 2)) ∧
    ((Computer.new [109, -7] none none).step.map
        (fun p => (p.1.relative_base, p.1.loc, p.2)) = some (-7, 2, none)) := by
  refine ⟨?_, ?_, rfl⟩
  · intro i m reader writer alt rb h
    cases i with
    | AdjustRelativeBase src => exact absurd rfl (h src)
    | Add i1 i2 o => rfl
    | Multiply i1 i2 o => rfl
    | Input d => rfl
    | Output s => rfl
    | JumpIfTrue a b => rfl
    | JumpIfFalse a b => rfl
    | LessThan i1 i2 o => rfl
    | Equals i1 i2 o => rfl
    | Stop => rfl
  · intro src m reader writer alt rb
    exact ⟨rfl, rfl⟩

theorem relative_base_frame_witness :
    ((Instruction.Output (Argument.new 7 (some .Immediate) 0)).call emptyMem
        (.Queue []) (.Queue []) [] 5).rb = 5 ∧
    ((Instruction.AdjustRelativeBase (Argument.new 3 (some .Immediate) 0)).call emptyMem
        (.Queue []) (.Queue []) [] 5).rb
      = 5 + readValue (Argument.new 3 (some .Immediate) 0) emptyMem :=
  ⟨relative_base_frame.1 (.Output (Argument.new 7 (some .Immediate) 0)) emptyMem
      (.Queue []) (.Queue []) [] 5 (fun _ h => Instruction.noConfusion h),
   (relative_base_frame.2.1 (Argument.new 3 (some .Immediate) 0) emptyMem
      (.Queue []) (.Queue []) [] 5).1⟩

/-- C10: executing an Output, JumpIfTrue, JumpIfFalse, AdjustRelativeBase
or Stop instruction leaves every memory cell unchanged; only Add,
Multiply, Input, LessThan and Equals (the `writesMem` instructions) ever
write to memory. -/
theorem memory_frame (i : Instruction) (m : Mem) (reader : ComputerInput)
    (writer : ComputerOutput) (alt : List Int) (rb : Int)
    (h : writesMem i = false) :
    (i.call m reader writer alt rb).mem = m := by
  cases i with
  | Add i1 i2 o => exact absurd h (by simp [writesMem])
  | Multiply i1 i2 o => exact absurd h (by simp [writesMem])
  | Input d => exact absurd h (by simp [writesMem])
  | LessThan i1 i2 o => exact absurd h (by simp [writesMem])
  | Equals i1 i2 o => exact absurd h (by simp [writesMem])
  | Output s => rfl
  | JumpIfTrue a b => rfl
  | JumpIfFalse a b => rfl
  | AdjustRelativeBase a => rfl
  | Stop => rfl

theorem memory_frame_witness :
    ((Instruction.Output (Argument.new 7 (some .Immediate) 0)).call (initMem [4, 2, 42])
        (.Queue []) (.Queue []) [] 0).mem = initMem [4, 2, 42] :=
  memory_frame (.Output (Argument.new 7 (some .Immediate) 0)) (initMem [4, 2, 42])
    (.Queue []) (.Queue []) [] 0 (by rfl)

/-- For a stopped engine, `result()` delivers the cell-0 value exactly when
address 0 is populated, and the empty-memory error exactly otherwise. -/
theorem result_characterisation {c : Computer} (hr : c.running = false) :
    (∀ v, c.result = .ok v → c.running = false ∧ c.memory 0 = some v) ∧
    (c.result = .error .emptyMemory ↔ (c.running = false ∧ c.memory 0 = none)) := by
  constructor
  · intro v hv
    unfold Computer.result at hv
    split at hv <;> simp_all
  · unfold Computer.result
    split
    · rename_i a ha
      constructor
      · intro hh
        exact absurd hh (by simp)
      · rintro ⟨-, h0⟩
        simp_all
    · rename_i ha
      simp [hr, ha]

/-- C6 counterexample: with an empty program listing, address 0 is never
populated, yet `run` fails at the first `step` with the out-of-range
decode error, not with the empty-memory error. -/
theorem run_empty_program_out_of_range :
    ((Computer.run 1 (Computer.new [] none none)).map (fun p => p.2))
        = some (.error (.outOfRange 0)) ∧
    (Err.outOfRange 0) ≠ Err.emptyMemory ∧
    (Computer.new [] none none).memory 0 = none :=
  ⟨rfl, by decide, rfl⟩

/-- C6 (amended): `run` steps repeatedly while the engine is Running; a
normal `ok` result is exactly the value at address 0 of a stopped engine,
and the empty-memory error is returned iff the engine stopped normally
with address 0 never populated.  (An empty initial program instead fails
at the first step with the out-of-range decode error, because the
instruction pointer finds no cell to decode.) -/
theorem run_result_characterisation :
    ∀ (fuel : Nat) (c c' : Computer) (r : Except Err Int),
      Computer.run fuel c = some (c', r) →
      ((∀ v, r = .ok v → c'.running = false ∧ c'.memory 0 = some v) ∧
       (r = .error .emptyMemory ↔ (c'.running = false ∧ c'.memory 0 = none))) := by
  intro fuel
  induction fuel with
  | zero =>
    intro c c' r h
    simp only [Computer.run] at h
    split at h
    · simp at h
    · rename_i hr
      simp only [Option.some.injEq, Prod.mk.injEq] at h
      obtain ⟨h1, h2⟩ := h
      subst h1
      subst h2
      exact result_characterisation (by simpa using hr)
  | succ fuel ih =>
    intro c c' r h
    simp only [Computer.run] at h
    split at h
    · rename_i hr
      split at h
      · simp at h
      · rename_i c1 e hstep
        simp only [Option.some.injEq, Prod.mk.injEq] at h
        obtain ⟨h1, h2⟩ := h
        subst h1
        subst h2
        obtain ⟨-, -, hrun, -, -, -, hne, -⟩ := step_error_state hstep
        constructor
        · intro v hv
          exact absurd hv (by simp)
        · constructor
          · intro hh
            simp only [Except.error.injEq] at hh
            exact absurd hh hne
          · rintro ⟨hf, -⟩
            rw [hrun, hr] at hf
            exact absurd hf (by simp)
      · exact ih _ _ _ h
    · rename_i hr
      simp only [Option.some.injEq, Prod.mk.injEq] at h
      obtain ⟨h1, h2⟩ := h
      subst h1
      subst h2
      exact result_characterisation (by simpa using hr)

theorem run_result_characterisation_witness :
    ({ Computer.new [99] none none with running := false }).running = false ∧
    ({ Computer.new [99] none none with running := false }).memory 0 = some 99 :=
  (run_result_characterisation 2 (Computer.new [99] none none)
    { Computer.new [99] none none with running := false } (.ok 99) (by rfl)).1 99 rfl

/-- C7: for a queue-backed output, the `output()` snapshot after a run is
exactly the queue the engine started with extended by the values emitted
by Output instructions, in emission order; and because `output(&self)`
borrows the engine immutably, a second call returns the same sequence and
leaves the state unchanged. -/
theorem output_queue_snapshot :
    ∀ (fuel : Nat) (c c' : Computer) (r : Except Err Int) (q0 : List Int),
      Computer.run fuel c = some (c', r) → c.output = .Queue q0 →
      (c'.output = .Queue (q0 ++ runEmits fuel c) ∧
       Computer.readOutput c' = q0 ++ runEmits fuel c ∧
       Computer.outputCall ((Computer.outputCall c').2) = Computer.outputCall c') := by
  intro fuel
  induction fuel with
  | zero =>
    intro c c' r q0 h hq
    simp only [Computer.run] at h
    split at h
    · simp at h
    · rename_i hr
      simp only [Option.some.injEq, Prod.mk.injEq] at h
      obtain ⟨h1, -⟩ := h
      subst h1
      have hre : runEmits 0 c = [] := by
        simp only [runEmits]
        rw [if_neg (by simpa using hr)]
      rw [hre]
      simp [Computer.readOutput, hq, Computer.outputCall]
  | succ fuel ih =>
    intro c c' r q0 h hq
    simp only [Computer.run] at h
    split at h
    · rename_i hr
      split at h
      · simp at h
      · rename_i c1 e hstep
        simp only [Option.some.injEq, Prod.mk.injEq] at h
        obtain ⟨h1, -⟩ := h
        subst h1
        have hout := step_queue_out hstep hq
        have hnil := stepEmits_nil_of_error hstep
        have hre : runEmits (fuel + 1) c = [] := by
          simp only [runEmits]
          rw [if_pos hr]
          simp [hstep]
        rw [hre]
        rw [hnil] at hout
        simp only [List.append_nil] at hout
        simp [hout, Computer.readOutput, Computer.outputCall]
      · rename_i c1 hstep
        have hout := step_queue_out hstep hq
        have hre : runEmits (fuel + 1) c = stepEmits c ++ runEmits fuel c1 := by
          simp only [runEmits]
          rw [if_pos hr]
          simp [hstep]
        obtain ⟨o1, o2, o3⟩ := ih c1 c' r (q0 ++ stepEmits c) h hout
        rw [hre]
        exact ⟨by rw [o1, List.append_assoc], by rw [o2, List.append_assoc], o3⟩
    · rename_i hr
      simp only [Option.some.injEq, Prod.mk.injEq] at h
      obtain ⟨h1, -⟩ := h
      subst h1
      have hre : runEmits (fuel + 1) c = [] := by
        simp only [runEmits]
        rw [if_neg (by simpa using hr)]
      rw [hre]
      simp [Computer.readOutput, hq, Computer.outputCall]

theorem output_queue_snapshot_witness :
    outputExampleFinal.output = .Queue ([] ++ runEmits 3 outputExample) ∧
    Computer.readOutput outputExampleFinal = [] ++ runEmits 3 outputExample ∧
    Computer.outputCall ((Computer.outputCall outputExampleFinal).2)
        = Computer.outputCall outputExampleFinal :=
  output_queue_snapshot 3 outputExample outputExampleFinal (.ok 104) [] (by rfl) (by rfl)

end Intcode
